import Mathlib

/-!
Verification of the H4 cooperative timer scheduler (src/H4.h).

The header defines the countdown functoids `H4Countdown` and
`H4RandomCountdown` inline, the `smartTicker` record, and declares the
`H4` scheduler class whose registry (`tickers`), dispatch queue (`jobQ`),
mutex (`jqMutex`) and id counter (`nextUid`) are static members.  The
method bodies of `H4` live in a source file not present in the repository
snapshot, so the scheduler operations are modelled from the specification
(each such definition says so in its doc comment); the countdown functoids
and all class declarations are embedded directly from the header.

Machine integers: `uint32_t` is modelled as `Nat` with explicit reduction
modulo `2^32` where overflow can occur.
-/

namespace H4Spec

/-- Modulus of the `uint32_t` type. -/
def U32 : Nat := 2 ^ 32

/-- Embeds `H4Countdown` (src/H4.h lines 96-103): protected member
`uint32_t count`, initialised from the constructor argument
(default `0`). -/
structure H4Countdown where
  count : Nat
deriving Repr, DecidableEq

/-- Constructor `H4Countdown(uint32_t start=0)`: stores `start`. -/
def H4Countdown.mkStart (start : Nat) : H4Countdown := ⟨start % U32⟩

/-- One evaluation of `operator()` on the stored count:
`return --count;` pre-decrements the 32-bit counter and returns the
post-decrement value, i.e. `count - 1` with unsigned wraparound. -/
def H4Countdown.step (count : Nat) : Nat := (count + (U32 - 1)) % U32

/-- Embeds `virtual uint32_t operator()(){ return --count; }`: the
functoid both mutates its state and returns the new count. -/
def H4Countdown.call (c : H4Countdown) : Nat × H4Countdown :=
  let n := H4Countdown.step c.count
  (n, ⟨n⟩)

/-- The value returned by the `i`-th invocation of `operator()` on a
countdown whose initial count is `k` is `step` iterated `i` times. -/
def H4Countdown.nthReturn (k i : Nat) : Nat := H4Countdown.step^[i] k

/-- Embeds `H4RandomCountdown` (src/H4.h lines 107-111): the constructor sets
`count = random(tmin, tmax)` once; `operator()` is inherited unchanged
from `H4Countdown`.  The Arduino `random(min, max)` source is passed in
as the function `rand`. -/
def H4RandomCountdown.mk (rand : Nat → Nat → Nat) (tmin tmax : Nat) :
    H4Countdown := ⟨rand tmin tmax % U32⟩

/-- The random source contract (spec §6): `uniform(min, max) -> u32`
draws from the half-open range `[min, max)`. -/
def randSpec (rand : Nat → Nat → Nat) : Prop :=
  ∀ a b : Nat, a < b → a ≤ rand a b ∧ rand a b < b

theorem H4Countdown.step_of_pos {k : Nat} (hk : 0 < k) (hlt : k < U32) :
    H4Countdown.step k = k - 1 := by
  unfold H4Countdown.step
  have h1 : k + (U32 - 1) = (k - 1) + U32 := by omega
  rw [h1, Nat.add_mod_right]
  exact Nat.mod_eq_of_lt (by omega)

theorem H4Countdown.iterate_step {k : Nat} (hlt : k < U32) :
    ∀ i, i ≤ k → H4Countdown.step^[i] k = k - i := by
  intro i
  induction i with
  | zero => intro _; simp
  | succ n ih =>
    intro h
    rw [Function.iterate_succ_apply', ih (by omega)]
    rw [H4Countdown.step_of_pos (by omega) (by omega)]
    omega

/-- Claim C1: For every initial count `k ≥ 1` (a `uint32_t`, so `k < 2^32`),
the fixed countdown `H4Countdown(k)` returns a non-zero value on each of
its first `k-1` invocations of `operator()` and zero on its `k`-th
invocation: `nTimes(k, ms, fn)` fires `fn` exactly `k` times and
`once(ms, fn)` (`k = 1`) fires exactly once. -/
theorem countdown_fires_exactly_k (k : Nat) (hk : 1 ≤ k) (hlt : k < U32) :
    (∀ i, 1 ≤ i → i < k → H4Countdown.nthReturn k i ≠ 0) ∧
      H4Countdown.nthReturn k k = 0 := by
  constructor
  · intro i h1 h2
    unfold H4Countdown.nthReturn
    rw [H4Countdown.iterate_step hlt i (by omega)]
    omega
  · unfold H4Countdown.nthReturn
    rw [H4Countdown.iterate_step hlt k (le_refl k)]
    omega

/-- Witness for C1 at `k = 3`: the first two returns are non-zero and the
third is zero. -/
theorem countdown_fires_exactly_k_witness :
    (∀ i, 1 ≤ i → i < 3 → H4Countdown.nthReturn 3 i ≠ 0) ∧
      H4Countdown.nthReturn 3 3 = 0 :=
  countdown_fires_exactly_k 3 (by decide) (by norm_num [U32])

/-- Claim C9: A default-constructed `H4Countdown` starts at `count = 0`; its
first `operator()` wraps the unsigned 32-bit counter: `--count` yields
`2^32 - 1`, which is non-zero, so the timer is treated as continuing, and
only after `2^32` invocations in total does the count reach zero. -/
theorem countdown_zero_wraps :
    (H4Countdown.mkStart 0).count = 0 ∧
      H4Countdown.nthReturn 0 1 = U32 - 1 ∧
      H4Countdown.nthReturn 0 1 ≠ 0 ∧
      H4Countdown.nthReturn 0 (U32) = 0 := by
  refine ⟨rfl, ?_, ?_, ?_⟩
  · unfold H4Countdown.nthReturn
    rw [Function.iterate_one]
    unfold H4Countdown.step
    rw [Nat.zero_add]
    exact Nat.mod_eq_of_lt (by norm_num [U32])
  · unfold H4Countdown.nthReturn
    rw [Function.iterate_one]
    unfold H4Countdown.step
    rw [Nat.zero_add, Nat.mod_eq_of_lt (by norm_num [U32])]
    norm_num [U32]
  · unfold H4Countdown.nthReturn
    have hsplit : U32 = (U32 - 1) + 1 := by norm_num [U32]
    rw [hsplit, Function.iterate_add_apply, Function.iterate_one]
    have h0 : H4Countdown.step 0 = U32 - 1 := by
      unfold H4Countdown.step
      rw [Nat.zero_add]
      exact Nat.mod_eq_of_lt (by norm_num [U32])
    rw [h0, H4Countdown.iterate_step (by norm_num [U32]) (U32 - 1) (le_refl _)]
    omega

/-- Claim C6: the functoid `H4RandomCountdown(tmin, tmax)` draws its count exactly once,
at construction, uniformly from `[tmin, tmax)`; afterwards it is the
inherited `H4Countdown` with that drawn initial count: each later
invocation decrements and returns the post-decrement value exactly as the
fixed countdown does. -/
theorem random_countdown_draws_once (rand : Nat → Nat → Nat)
    (hr : randSpec rand) (tmin tmax : Nat) (hband : tmin < tmax)
    (hmax : tmax ≤ U32) :
    tmin ≤ (H4RandomCountdown.mk rand tmin tmax).count ∧
      (H4RandomCountdown.mk rand tmin tmax).count < tmax ∧
      H4RandomCountdown.mk rand tmin tmax =
        H4Countdown.mkStart (rand tmin tmax) := by
  obtain ⟨hlo, hhi⟩ := hr tmin tmax hband
  have hmod : rand tmin tmax % U32 = rand tmin tmax :=
    Nat.mod_eq_of_lt (by omega)
  refine ⟨?_, ?_, rfl⟩
  · unfold H4RandomCountdown.mk
    simp only [hmod]
    exact hlo
  · unfold H4RandomCountdown.mk
    simp only [hmod]
    exact hhi

/-- Witness for C6 with the concrete source `rand a b = a`
(which satisfies the range contract at `(2, 5)`). -/
theorem random_countdown_draws_once_witness :
    2 ≤ (H4RandomCountdown.mk (fun (a _ : Nat) => a) 2 5).count ∧
      (H4RandomCountdown.mk (fun (a _ : Nat) => a) 2 5).count < 5 ∧
      H4RandomCountdown.mk (fun (a _ : Nat) => a) 2 5 =
        H4Countdown.mkStart ((fun (a : Nat) (_ : Nat) => a) 2 5) :=
  random_countdown_draws_once (fun (a _ : Nat) => a)
    (fun a b h => ⟨le_refl a, h⟩) 2 5 (by decide) (by norm_num [U32])

/-- Embeds the `smartTicker` record (src/H4.h lines 65-79): interval `ms`,
random bound `Rmax`, the unique id `uid`; the re-queue functoid `rq` is
represented by its countdown state `count` (the `H4Countdown` fed to
finite timers), and the presence of the `fn`/`chain` callbacks is tracked
by `hasChain` — firing a ticker is observed in the trace as an event
carrying its uid, so the callback bodies themselves need no
representation. -/
structure Ticker where
  ms : Nat
  Rmax : Nat
  count : Nat
  hasChain : Bool
  uid : Nat
deriving Repr, DecidableEq

/-- Trace events observable during a drain pass: a primary `onFire`
callback invocation, or an `onComplete` (chain) invocation.  The
`parentLive` flag of a `complete` event records what a Registry lookup of
the parent id returns at the moment `onComplete` runs. -/
inductive Ev where
  | fire (uid : Nat)
  | complete (uid : Nat) (parentLive : Bool)
deriving Repr, DecidableEq

/-- Fire event pushed on the job queue: the ticker's uid, whether the
continuation verdict was terminal (it returned zero), and whether the
ticker has a chain callback. -/
structure FireEv where
  uid : Nat
  terminal : Bool
  hasChain : Bool
deriving Repr, DecidableEq

/-- Shared scheduler state.  The header (src/H4.h lines 119-132) declares
`jobQ`, `tickers`, `jqMutex` and `nextUid` as static members of class
`H4`, so this state is process-wide, not per-instance; `log` is the
observable trace of callback invocations. -/
structure Sched where
  tickers : List Ticker
  jobQ : List FireEv
  nextUid : Nat
  log : List Ev
deriving Repr, DecidableEq

/-- Initial shared state: no tickers, empty queue, zero ids issued. -/
def initSched : Sched := ⟨[], [], 0, []⟩

/-- Registry lookup by id: does some live ticker carry uid `u`? -/
def lookupLive (ts : List Ticker) (u : Nat) : Bool :=
  ts.any (fun t => t.uid == u)

/-- Modelled from the spec: the body of `H4::_timer` (declared at
src/H4.h line 129) is absent from the snapshot; per spec §4.1 `create`
allocates a fresh id from `nextUid`, constructs the Timer Record, inserts
it, and returns the id immediately with no callback running
synchronously. -/
def timerCreate (msec rmax count : Nat) (hasChain : Bool) (s : Sched) :
    Sched × Nat :=
  ({ s with tickers := s.tickers ++ [⟨msec, rmax, count, hasChain, s.nextUid⟩],
            nextUid := s.nextUid + 1 }, s.nextUid)

/-- Modelled from the spec: the body of `H4::never(H4_TIMER)` (declared
at src/H4.h line 143) is absent from the snapshot; per spec §4.5/§7
cancel removes the record with that id (and any pending queue entry,
since cancellation takes effect before the next pass observes the id),
and an unknown id is silently ignored; no callback or chain runs. -/
def never (u : Nat) (s : Sched) : Sched :=
  { s with tickers := s.tickers.filter (fun t => t.uid != u),
           jobQ := s.jobQ.filter (fun e => e.uid != u) }

/-- Modelled from the spec: `H4::never()` (declared at src/H4.h line
142) is the global cancel-all; per spec §4.1 `removeAll` clears every
record. -/
def neverAll (s : Sched) : Sched := { s with tickers := [], jobQ := [] }

/-- Modelled from the spec: scheduler pass step 2 (§4.4) evaluates the
elapsed ticker's continuation (`rq`, here the countdown on `count`) and
tags the fire event terminal exactly when it returned zero. -/
def fireEventFor (t : Ticker) : FireEv :=
  ⟨t.uid, H4Countdown.step t.count == 0, t.hasChain⟩

/-- Modelled from the spec: scheduler pass step 3 (§4.4) for one queued
event: invoke `onFire`; if the verdict was terminal, remove the record
from the Registry and then invoke `onComplete` if present.  The
`complete` trace event records the Registry lookup of the parent id as
seen from inside `onComplete`. -/
def execEvent (s : Sched) (e : FireEv) : Sched :=
  let s1 : Sched := { s with log := s.log ++ [Ev.fire e.uid] }
  if e.terminal then
    let s2 : Sched :=
      { s1 with tickers := s1.tickers.filter (fun t => t.uid != e.uid) }
    if e.hasChain then
      { s2 with log := s2.log ++ [Ev.complete e.uid (lookupLive s2.tickers e.uid)] }
    else s2
  else s1

/-- Modelled from the spec: `drainAll` (§4.3) detaches the pending queue
and executes each entry's callback to completion, in FIFO order, before
starting the next.  A callback's body is the list of its atomic actions;
the drain's observable behaviour is their concatenation in queue
order. -/
def drainAll {α β : Type} (body : β → List α) : List β → List α
  | [] => []
  | e :: q => body e ++ drainAll body q

/-- Modelled from the spec: randomized interval selection (§3, and the
header comment at src/H4.h line 68 — the ticker is random iff
`Rmax > ms`): each cycle the next-fire interval is drawn from
`[ms, Rmax)` when `Rmax > ms` and is the fixed `ms` otherwise. -/
def nextInterval (rand : Nat → Nat → Nat) (t : Ticker) : Nat :=
  if t.ms < t.Rmax then rand t.ms t.Rmax else t.ms

/-- Modelled from the spec: `H4::everyRandom(Rmin, Rmax, fn)` (declared
at src/H4.h line 139) creates an infinitely repeating ticker with
`ms = Rmin` and random bound `Rmax` (the spec's thin composition layer,
§4.5). -/
def everyRandom (rmin rmax : Nat) (s : Sched) : Sched × Nat :=
  timerCreate rmin rmax 0 false s

/-- Operations that create or remove timer records during one run of the
process: API creation, cancel by id, cancel-all, and the handling of one
queued fire event (which removes the record on a terminal verdict). -/
inductive Op where
  | create (msec rmax count : Nat) (hasChain : Bool)
  | cancel (u : Nat)
  | cancelAll
  | runEvent (e : FireEv)
deriving Repr, DecidableEq

/-- Applies one operation to the shared state. -/
def stepOp (s : Sched) : Op → Sched
  | .create msec rmax count hc => (timerCreate msec rmax count hc s).1
  | .cancel u => never u s
  | .cancelAll => neverAll s
  | .runEvent e => execEvent s e

/-- Runs a sequence of operations from a starting state. -/
def runOps (s : Sched) : List Op → Sched
  | [] => s
  | op :: ops => runOps (stepOp s op) ops

/-- Ids handed out by the `create` operations of a run, in order of
assignment. -/
def createdUids : Sched → List Op → List Nat
  | _, [] => []
  | s, op :: ops =>
    match op with
    | .create msec rmax count hc =>
        (timerCreate msec rmax count hc s).2 ::
          createdUids (stepOp s (.create msec rmax count hc)) ops
    | _ => createdUids (stepOp s op) ops

/-- Registry well-formedness: live uids are pairwise distinct and all
below the issue counter. -/
def UidInv (s : Sched) : Prop :=
  (s.tickers.map (fun t => t.uid)).Nodup ∧
    ∀ t ∈ s.tickers, t.uid < s.nextUid

theorem drainAll_append {α β : Type} (body : β → List α) (q1 q2 : List β) :
    drainAll body (q1 ++ q2) = drainAll body q1 ++ drainAll body q2 := by
  induction q1 with
  | nil => simp [drainAll]
  | cons e q ih => simp [drainAll, ih]

/-- Claim C3: the drain executes fire events in enqueue (FIFO) order, and
an earlier event's callback runs to completion before a later event's
callback begins: for any two events `a` before `b` in the queue, the
observable trace is the earlier segments, then the whole of `a`'s body,
then the segments between, then the whole of `b`'s body, then the rest —
no interleaving, priority reordering or preemption. -/
theorem jobQ_fifo {α β : Type} (body : β → List α) (q1 q2 q3 : List β)
    (a b : β) :
    drainAll body (q1 ++ a :: (q2 ++ b :: q3)) =
      drainAll body q1 ++
        (body a ++ (drainAll body q2 ++ (body b ++ drainAll body q3))) := by
  simp [drainAll_append, drainAll]

theorem lookupLive_filter_self (ts : List Ticker) (u : Nat) :
    lookupLive (ts.filter (fun t => t.uid != u)) u = false := by
  simp [lookupLive, List.any_eq_true, List.mem_filter]

/-- Claim C2: for a finite timer whose continuation returned zero
(terminal verdict) and which has a chain callback, the drain step appends
exactly one `onFire` event followed by exactly one `onComplete` event to
the trace; at the moment `onComplete` runs the record is already removed,
so the Registry lookup it observes is `false`; explicit cancellation
(`never`) runs no callback at all, so `onComplete` never fires on
cancellation; a non-terminal fire emits no `onComplete`. -/
theorem chain_after_final_fire (s : Sched) (t : Ticker)
    (hterm : H4Countdown.step t.count = 0) (hchain : t.hasChain = true) :
    (execEvent s (fireEventFor t)).log =
        s.log ++ [Ev.fire t.uid, Ev.complete t.uid false] ∧
      lookupLive (execEvent s (fireEventFor t)).tickers t.uid = false ∧
      ((execEvent s (fireEventFor t)).log.count (Ev.complete t.uid false) =
        s.log.count (Ev.complete t.uid false) + 1) ∧
      (never t.uid s).log = s.log ∧
      ∀ u : Nat, (execEvent s ⟨u, false, true⟩).log = s.log ++ [Ev.fire u] := by
  have he : fireEventFor t = ⟨t.uid, true, true⟩ := by
    simp [fireEventFor, hterm, hchain]
  refine ⟨?_, ?_, ?_, rfl, ?_⟩
  · rw [he]
    simp [execEvent, lookupLive_filter_self]
  · rw [he]
    simp only [execEvent, if_pos, if_true]
    exact lookupLive_filter_self s.tickers t.uid
  · rw [he]
    simp [execEvent, lookupLive_filter_self, List.count_append]
  · intro u
    simp [execEvent]

/-- Witness for C2: a count-1 ticker with a chain, in a registry holding
only that ticker. -/
theorem chain_after_final_fire_witness :
    (execEvent ⟨[⟨100, 0, 1, true, 5⟩], [], 6, []⟩
        (fireEventFor ⟨100, 0, 1, true, 5⟩)).log =
        ([] : List Ev) ++ [Ev.fire 5, Ev.complete 5 false] ∧
      lookupLive (execEvent ⟨[⟨100, 0, 1, true, 5⟩], [], 6, []⟩
        (fireEventFor ⟨100, 0, 1, true, 5⟩)).tickers 5 = false ∧
      ((execEvent ⟨[⟨100, 0, 1, true, 5⟩], [], 6, []⟩
          (fireEventFor ⟨100, 0, 1, true, 5⟩)).log.count (Ev.complete 5 false) =
        ([] : List Ev).count (Ev.complete 5 false) + 1) ∧
      (never 5 ⟨[⟨100, 0, 1, true, 5⟩], [], 6, []⟩).log = ([] : List Ev) ∧
      ∀ u : Nat, (execEvent ⟨[⟨100, 0, 1, true, 5⟩], [], 6, []⟩
        ⟨u, false, true⟩).log = ([] : List Ev) ++ [Ev.fire u] :=
  chain_after_final_fire ⟨[⟨100, 0, 1, true, 5⟩], [], 6, []⟩
    ⟨100, 0, 1, true, 5⟩ (by decide) rfl

/-- Claim C4: cancelling an id that no live timer carries — including a
second cancel of the same id or cancel of an expired timer — is a silent
no-op: the whole state (registry, dispatch queue, counter, trace) is
unchanged, and a repeated cancel of any id has no further effect. -/
theorem cancel_unknown_noop (s : Sched) (u : Nat)
    (h1 : ∀ t ∈ s.tickers, t.uid ≠ u) (h2 : ∀ e ∈ s.jobQ, e.uid ≠ u) :
    never u s = s ∧ never u (never u s) = never u s := by
  obtain ⟨ts, q, n, lg⟩ := s
  constructor
  · have ht : ts.filter (fun t => t.uid != u) = ts :=
      List.filter_eq_self.mpr (fun t hm => by simpa using h1 t hm)
    have hq : q.filter (fun e => e.uid != u) = q :=
      List.filter_eq_self.mpr (fun e hm => by simpa using h2 e hm)
    simp [never, ht, hq]
  · have ht : (ts.filter (fun t => t.uid != u)).filter
        (fun t => t.uid != u) = ts.filter (fun t => t.uid != u) :=
      List.filter_eq_self.mpr (fun t hm => (List.mem_filter.mp hm).2)
    have hq : (q.filter (fun e => e.uid != u)).filter
        (fun e => e.uid != u) = q.filter (fun e => e.uid != u) :=
      List.filter_eq_self.mpr (fun e hm => (List.mem_filter.mp hm).2)
    simp [never, ht, hq]

/-- Witness for C4: cancelling id 9 in a state whose only ticker has id 5
and whose queue holds one event for id 5. -/
theorem cancel_unknown_noop_witness :
    never 9 ⟨[⟨100, 0, 1, false, 5⟩], [⟨5, false, false⟩], 7, []⟩ =
        ⟨[⟨100, 0, 1, false, 5⟩], [⟨5, false, false⟩], 7, []⟩ ∧
      never 9 (never 9 ⟨[⟨100, 0, 1, false, 5⟩], [⟨5, false, false⟩], 7, []⟩) =
        never 9 ⟨[⟨100, 0, 1, false, 5⟩], [⟨5, false, false⟩], 7, []⟩ :=
  cancel_unknown_noop ⟨[⟨100, 0, 1, false, 5⟩], [⟨5, false, false⟩], 7, []⟩ 9
    (by decide) (by decide)

theorem execEvent_nextUid (s : Sched) (e : FireEv) :
    (execEvent s e).nextUid = s.nextUid := by
  rcases e with ⟨u, term, hc⟩
  cases term <;> cases hc <;> simp [execEvent]

theorem execEvent_tickers (s : Sched) (e : FireEv) :
    (execEvent s e).tickers = s.tickers ∨
      (execEvent s e).tickers = s.tickers.filter (fun t => t.uid != e.uid) := by
  rcases e with ⟨u, term, hc⟩
  cases term <;> cases hc <;> simp [execEvent]

theorem nodup_uid_filter {ts : List Ticker}
    (h : (ts.map (fun t => t.uid)).Nodup) (p : Ticker → Bool) :
    ((ts.filter p).map (fun t => t.uid)).Nodup :=
  List.Nodup.sublist (List.Sublist.map _ (List.filter_sublist ts)) h

theorem uidInv_step (s : Sched) (op : Op) (h : UidInv s) :
    UidInv (stepOp s op) := by
  obtain ⟨h1, h2⟩ := h
  cases op with
  | create msec rmax count hc =>
    constructor
    · simp only [stepOp, timerCreate, List.map_append, List.map_cons,
        List.map_nil]
      rw [List.nodup_append]
      refine ⟨h1, List.nodup_singleton _, ?_⟩
      intro a ha hb
      simp only [List.mem_singleton] at hb
      subst hb
      obtain ⟨t, ht, hteq⟩ := List.mem_map.mp ha
      exact absurd (hteq ▸ h2 t ht) (lt_irrefl _)
    · intro t ht
      simp only [stepOp, timerCreate, List.mem_append,
        List.mem_singleton] at ht
      rcases ht with ht | ht
      · exact lt_trans (h2 t ht) (Nat.lt_succ_self _)
      · subst ht
        exact Nat.lt_succ_self _
  | cancel u =>
    refine ⟨nodup_uid_filter h1 _, ?_⟩
    intro t ht
    simp only [stepOp, never] at ht ⊢
    exact h2 t (List.mem_of_mem_filter ht)
  | cancelAll =>
    exact ⟨by simp [stepOp, neverAll], by simp [stepOp, neverAll]⟩
  | runEvent e =>
    constructor
    · rcases execEvent_tickers s e with hte | hte <;>
        simp only [stepOp, hte]
      · exact h1
      · exact nodup_uid_filter h1 _
    · intro t ht
      simp only [stepOp] at ht ⊢
      rw [execEvent_nextUid]
      rcases execEvent_tickers s e with hte | hte <;> rw [hte] at ht
      · exact h2 t ht
      · exact h2 t (List.mem_of_mem_filter ht)

theorem uidInv_runOps (ops : List Op) (s : Sched) (h : UidInv s) :
    UidInv (runOps s ops) := by
  induction ops generalizing s with
  | nil => exact h
  | cons op ops ih => exact ih _ (uidInv_step s op h)

theorem stepOp_nextUid_le (s : Sched) (op : Op) :
    s.nextUid ≤ (stepOp s op).nextUid := by
  cases op with
  | create msec rmax count hc =>
    simp [stepOp, timerCreate]
  | cancel u => simp [stepOp, never]
  | cancelAll => simp [stepOp, neverAll]
  | runEvent e => rw [stepOp, execEvent_nextUid]

theorem createdUids_lb (ops : List Op) :
    ∀ s : Sched, ∀ m ∈ createdUids s ops, s.nextUid ≤ m := by
  induction ops with
  | nil => intro s m hm; simp [createdUids] at hm
  | cons op ops ih =>
    intro s m hm
    cases op with
    | create msec rmax count hc =>
      simp only [createdUids, timerCreate, List.mem_cons] at hm
      rcases hm with hm | hm
      · exact le_of_eq hm.symm
      · exact le_trans (stepOp_nextUid_le s (.create msec rmax count hc))
          (ih _ m hm)
    | cancel u =>
      simp only [createdUids] at hm
      exact le_trans (stepOp_nextUid_le s (.cancel u)) (ih _ m hm)
    | cancelAll =>
      simp only [createdUids] at hm
      exact le_trans (stepOp_nextUid_le s .cancelAll) (ih _ m hm)
    | runEvent e =>
      simp only [createdUids] at hm
      exact le_trans (stepOp_nextUid_le s (.runEvent e)) (ih _ m hm)

theorem createdUids_sorted (ops : List Op) :
    ∀ s : Sched, (createdUids s ops).Pairwise (· < ·) := by
  induction ops with
  | nil => intro s; simp [createdUids]
  | cons op ops ih =>
    intro s
    cases op with
    | create msec rmax count hc =>
      simp only [createdUids, timerCreate]
      rw [List.pairwise_cons]
      refine ⟨?_, ih _⟩
      intro m hm
      have hb := createdUids_lb ops _ m hm
      have hnext : (stepOp s (.create msec rmax count hc)).nextUid =
          s.nextUid + 1 := rfl
      omega
    | cancel u => simpa only [createdUids] using ih _
    | cancelAll => simpa only [createdUids] using ih _
    | runEvent e => simpa only [createdUids] using ih _

/-- Claim C7: across every sequence of timer creations and removals from
process start, each live id identifies exactly one record (the live uid
list has no duplicates, all below the issue counter), and the ids handed
out by successive creations are strictly increasing — so a retired id is
never reassigned to a later timer. -/
theorem uid_unique_monotone_never_reused (ops : List Op) :
    ((runOps initSched ops).tickers.map (fun t => t.uid)).Nodup ∧
      (∀ t ∈ (runOps initSched ops).tickers,
        t.uid < (runOps initSched ops).nextUid) ∧
      (createdUids initSched ops).Pairwise (· < ·) := by
  obtain ⟨h1, h2⟩ := uidInv_runOps ops initSched
    ⟨by simp [initSched], by simp [initSched]⟩
  exact ⟨h1, h2, createdUids_sorted ops initSched⟩

/-- Public API entry points of class `H4` (src/H4.h lines 138-152). -/
inductive ApiEntry where
  | everyE
  | everyRandomE
  | nTimesE
  | nTimesRandomE
  | onceE
  | onceRandomE
  | queueFunctionE
  | randomTimesE
  | randomTimesRandomE
  | whenE
  | wheneverE
  | neverE
deriving Repr, DecidableEq

/-- Declared return type of each public entry point in the header:
`true` when the declaration returns `H4_TIMER` (the fresh timer id),
`false` when it is declared `void` (src/H4.h lines 138-152). -/
def returnsTimerId : ApiEntry → Bool
  | .everyE => true
  | .everyRandomE => true
  | .nTimesE => true
  | .nTimesRandomE => true
  | .onceE => true
  | .onceRandomE => true
  | .queueFunctionE => false
  | .randomTimesE => true
  | .randomTimesRandomE => true
  | .whenE => false
  | .wheneverE => false
  | .neverE => false

/-- Claim C8 counterexample: the header declares `queueFunction` (line
148), `when` (line 151) and `whenever` (line 152) with return type
`void`, so these constructor entry points do not return the fresh timer
id to the caller, contrary to the claim that every entry point does. -/
theorem api_not_all_return_id :
    returnsTimerId ApiEntry.whenE = false ∧
      returnsTimerId ApiEntry.wheneverE = false ∧
      returnsTimerId ApiEntry.queueFunctionE = false := by
  exact ⟨rfl, rfl, rfl⟩

/-- Claim C8 (amended): every entry point goes through the registry's
create, which allocates the fresh id `nextUid`, inserts the new record,
bumps the counter, and executes no callback synchronously (the trace is
unchanged); the eight timer-valued entry points (`every`, `everyRandom`,
`once`, `onceRandom`, `nTimes`, `nTimesRandom`, `randomTimes`,
`randomTimesRandom`) are declared returning `H4_TIMER` and hand that id
back immediately, while `when`, `whenever` and `queueFunction` are
declared `void` and discard it. -/
theorem api_create_fresh_id (s : Sched) (msec rmax count : Nat)
    (hc : Bool) :
    (returnsTimerId ApiEntry.everyE = true ∧
      returnsTimerId ApiEntry.everyRandomE = true ∧
      returnsTimerId ApiEntry.onceE = true ∧
      returnsTimerId ApiEntry.onceRandomE = true ∧
      returnsTimerId ApiEntry.nTimesE = true ∧
      returnsTimerId ApiEntry.nTimesRandomE = true ∧
      returnsTimerId ApiEntry.randomTimesE = true ∧
      returnsTimerId ApiEntry.randomTimesRandomE = true) ∧
    (returnsTimerId ApiEntry.whenE = false ∧
      returnsTimerId ApiEntry.wheneverE = false ∧
      returnsTimerId ApiEntry.queueFunctionE = false) ∧
    (timerCreate msec rmax count hc s).2 = s.nextUid ∧
    (timerCreate msec rmax count hc s).1.tickers =
      s.tickers ++ [⟨msec, rmax, count, hc, s.nextUid⟩] ∧
    (timerCreate msec rmax count hc s).1.nextUid = s.nextUid + 1 ∧
    lookupLive (timerCreate msec rmax count hc s).1.tickers s.nextUid
      = true ∧
    (timerCreate msec rmax count hc s).1.log = s.log := by
  refine ⟨⟨rfl, rfl, rfl, rfl, rfl, rfl, rfl, rfl⟩,
    ⟨rfl, rfl, rfl⟩, rfl, rfl, rfl, ?_, rfl⟩
  simp [timerCreate, lookupLive]

/-- Claim C5: when `Rmax > ms` the next-fire interval is freshly drawn
each cycle from the half-open range `[ms, Rmax)` (so for
`everyRandom(min, max, fn)` — whose record has `ms = min`,
`Rmax = max` — every inter-fire gap lies in `[min, max)`); when `Rmax`
is `0` or equal to `ms`, the interval is the fixed `ms`. -/
theorem random_interval_bounds (rand : Nat → Nat → Nat)
    (hr : randSpec rand) (t : Ticker) (rmin rmax : Nat) (s : Sched) :
    (t.ms < t.Rmax →
      t.ms ≤ nextInterval rand t ∧ nextInterval rand t < t.Rmax) ∧
    (t.Rmax = 0 ∨ t.Rmax = t.ms → nextInterval rand t = t.ms) ∧
    ((everyRandom rmin rmax s).1.tickers =
      s.tickers ++ [⟨rmin, rmax, 0, false, s.nextUid⟩]) ∧
    (rmin < rmax →
      rmin ≤ nextInterval rand ⟨rmin, rmax, 0, false, s.nextUid⟩ ∧
      nextInterval rand ⟨rmin, rmax, 0, false, s.nextUid⟩ < rmax) := by
  refine ⟨?_, ?_, rfl, ?_⟩
  · intro hband
    unfold nextInterval
    rw [if_pos hband]
    exact hr t.ms t.Rmax hband
  · intro hfix
    unfold nextInterval
    rw [if_neg (by omega)]
  · intro hband
    unfold nextInterval
    rw [if_pos hband]
    exact hr rmin rmax hband

/-- Witness for C5 with the concrete source `rand a b = a`, a random
ticker `(ms, Rmax) = (2, 5)` and an `everyRandom(2, 5)` creation on the
initial state. -/
theorem random_interval_bounds_witness :
    ((⟨2, 5, 0, false, 0⟩ : Ticker).ms < (⟨2, 5, 0, false, 0⟩ : Ticker).Rmax →
      (⟨2, 5, 0, false, 0⟩ : Ticker).ms ≤
          nextInterval (fun (a _ : Nat) => a) ⟨2, 5, 0, false, 0⟩ ∧
        nextInterval (fun (a _ : Nat) => a) ⟨2, 5, 0, false, 0⟩ <
          (⟨2, 5, 0, false, 0⟩ : Ticker).Rmax) ∧
    ((⟨2, 5, 0, false, 0⟩ : Ticker).Rmax = 0 ∨
        (⟨2, 5, 0, false, 0⟩ : Ticker).Rmax = (⟨2, 5, 0, false, 0⟩ : Ticker).ms →
      nextInterval (fun (a _ : Nat) => a) ⟨2, 5, 0, false, 0⟩ =
        (⟨2, 5, 0, false, 0⟩ : Ticker).ms) ∧
    ((everyRandom 2 5 initSched).1.tickers =
      initSched.tickers ++ [⟨2, 5, 0, false, initSched.nextUid⟩]) ∧
    (2 < 5 →
      2 ≤ nextInterval (fun (a _ : Nat) => a)
          ⟨2, 5, 0, false, initSched.nextUid⟩ ∧
      nextInterval (fun (a _ : Nat) => a)
          ⟨2, 5, 0, false, initSched.nextUid⟩ < 5) :=
  random_interval_bounds (fun (a _ : Nat) => a)
    (fun a b h => ⟨le_refl a, h⟩) ⟨2, 5, 0, false, 0⟩ 2 5 initSched

/-- Embeds the per-instance data members of class `H4` (src/H4.h lines
117-118): `load` and `prevUid` are the only non-static state an `H4`
object carries. -/
structure H4Inst where
  load : Nat
  prevUid : Nat
deriving Repr, DecidableEq

/-- Because `jqMutex`, `jobQ`, `tickers` (src/H4.h lines 119-122) and
`nextUid` (line 132) are `static` members, creation acts on the single
process-wide state no matter which `H4` instance it is invoked
through. -/
def createVia (_i : H4Inst) (msec rmax count : Nat) (hc : Bool)
    (s : Sched) : Sched × Nat :=
  timerCreate msec rmax count hc s

/-- Cancel-by-id through an arbitrary instance: acts on the shared
static state. -/
def neverVia (_i : H4Inst) (u : Nat) (s : Sched) : Sched := never u s

/-- Cancel-all through an arbitrary instance: acts on the shared static
state. -/
def neverAllVia (_i : H4Inst) (s : Sched) : Sched := neverAll s

/-- Registry lookup through an arbitrary instance: reads the shared
static state. -/
def lookupVia (_i : H4Inst) (u : Nat) (s : Sched) : Bool :=
  lookupLive s.tickers u

/-- Claim C10: the registry, dispatch queue, mutex and id counter are
static, so all `H4` instances share one registry, one queue and one id
sequence: every operation is independent of the instance it is invoked
through; a timer created through one instance is visible to and
cancellable through any other; and cancel-all through any instance
empties the whole shared registry and queue. -/
theorem static_members_shared (i j : H4Inst) (s : Sched) (u : Nat)
    (msec rmax count : Nat) (hc : Bool) :
    createVia i msec rmax count hc s = createVia j msec rmax count hc s ∧
    neverVia i u s = neverVia j u s ∧
    neverAllVia i s = neverAllVia j s ∧
    lookupVia j (createVia i msec rmax count hc s).2
      (createVia i msec rmax count hc s).1 = true ∧
    lookupVia j (createVia i msec rmax count hc s).2
      (neverVia j (createVia i msec rmax count hc s).2
        (createVia i msec rmax count hc s).1) = false ∧
    (neverAllVia j (createVia i msec rmax count hc s).1).tickers = [] ∧
    (neverAllVia j (createVia i msec rmax count hc s).1).jobQ = [] := by
  refine ⟨rfl, rfl, rfl, ?_, ?_, rfl, rfl⟩
  · simp [createVia, lookupVia, timerCreate, lookupLive]
  · simp only [createVia, lookupVia, neverVia, never]
    exact lookupLive_filter_self _ _

end H4Spec
